import Mathlib

set_option maxRecDepth 100000

/-!
Verification of the movieDB CSV-to-SQLite bulk loader (`main.go`).

The development shallowly embeds the program's core: the header validator
`validateHeaders`, the batched transactional loaders `populateMovies` /
`populateMoviesGenres`, and the reporting query `queryDbHighestRatedGenres`.
Go strings are Lean `String`s, Go `error` results are `Option GoErr`
(`none` is Go's `nil`), and the storage engine is an oracle deciding which
`Begin` / `Exec` / `Commit` calls succeed.  The CSV reader (Go `encoding/csv`,
external to the repository) is modelled from the spec where a claim needs it.
-/

/-- Mirror of Go `strings.Join(elems, ",")`: empty string for an empty slice,
otherwise the elements separated by single commas. -/
def goJoinComma : List String → String
  | [] => ""
  | [s] => s
  | s :: s2 :: rest => s ++ "," ++ goJoinComma (s2 :: rest)

/-- Embedding of `validateHeaders` (main.go): pick the expected header list by
table name (default branch: `false`) and compare the comma-joined observed
headers with the comma-joined expected headers. -/
def validateHeaders (tableName : String) (headers : List String) : Bool :=
  if tableName = "movies" then
    goJoinComma headers == goJoinComma ["id", "name", "year", "rank"]
  else if tableName = "movies_genres" then
    goJoinComma headers == goJoinComma ["movie_id", "genre"]
  else
    false

/-- Errors the storage engine can hand back to the loader. -/
inductive GoErr where
  | beginErr
  | insertErr
  | commitErr
deriving DecidableEq, Repr

/-- Behaviour of the external storage engine during one load: whether
`db.Begin` succeeds, whether the `i`-th `tx.Exec` succeeds, and whether
`tx.Commit` succeeds. -/
structure Oracle where
  beginOk : Bool
  execOk : Nat → Bool
  commitOk : Bool

/-- One `Read()` result of the record reader after the header: either a
successfully decoded record (a field slice) or a decode failure, which the
loader skips (`continue`).  End of stream (`io.EOF`) is the end of the list. -/
inductive ReadItem where
  | ok (fields : List String)
  | bad
deriving DecidableEq, Repr

/-- Whether a read item is a successfully decoded record. -/
def ReadItem.isOk : ReadItem → Bool
  | .ok _ => true
  | .bad => false

/-- Whether a read item is a decode failure (a skipped record). -/
def ReadItem.isBad : ReadItem → Bool
  | .ok _ => false
  | .bad => true

/-- Go `moviesRecord[i]`: in-bounds access yields the field, out-of-bounds is a
runtime panic (modelled as `none`). -/
def extract4 (r : List String) : Option (List String) :=
  match r.get? 0, r.get? 1, r.get? 2, r.get? 3 with
  | some a, some b, some c, some d => some [a, b, c, d]
  | _, _, _, _ => none

/-- Two-column variant for `movies_genres` (`moviesRecord[0]`, `moviesRecord[1]`). -/
def extract2 (r : List String) : Option (List String) :=
  match r.get? 0, r.get? 1 with
  | some a, some b => some [a, b]
  | _, _ => none

/-- State of the read/batch loop of a populate function.  The source keeps the
buffer as a flat `values []interface{}` plus `validRowCount`; here the buffer is
kept row-grouped (`batch`, with `values = batch.flatten` and
`validRowCount = batch.length`).  `pending` are the rows inserted into the open
transaction so far (uncommitted), `execs` the batches passed to `tx.Exec` so
far, `execIdx` the number of `tx.Exec` calls made, and `totalMovies` the
source's running insert counter. -/
structure MState where
  batch : List (List String)
  pending : List (List String)
  execs : List (List (List String))
  execIdx : Nat
  totalMovies : Nat
deriving Repr

/-- Outcome of the read loop: end of stream reached, a batch insert failed
(the function returns the insert error), or an out-of-bounds field access
panicked. -/
inductive LoopOut where
  | done (st : MState)
  | insertFail (st : MState)
  | crash (st : MState)
deriving Repr

/-- The `for` loop of `populateMovies`: read a record, skip it on decode
failure, otherwise append its four fields to the buffer; when the buffer
reaches `batchSize = 100` rows, execute the batch inside the transaction and
reset the buffer, returning the error if the insert fails. -/
def moviesLoop (ora : Oracle) : List ReadItem → MState → LoopOut
  | [], st => .done st
  | .bad :: rest, st => moviesLoop ora rest st
  | .ok r :: rest, st =>
    match extract4 r with
    | none => .crash st
    | some row =>
      let b := st.batch ++ [row]
      if b.length = 100 then
        if ora.execOk st.execIdx then
          moviesLoop ora rest
            ⟨[], st.pending ++ b, st.execs ++ [b], st.execIdx + 1, st.totalMovies + 100⟩
        else
          .insertFail ⟨b, st.pending, st.execs ++ [b], st.execIdx + 1, st.totalMovies⟩
      else
        moviesLoop ora rest { st with batch := b }

/-- Observable outcome of one populate call.  `committed` are the rows durably
present in the destination table when the function returns (the table starts
empty: `newSchema` creates it in a fresh temporary database); rows inserted in
a transaction that was never committed are not in it.  `err` is the function's
Go return value (`none` = `nil`).  `rollbackCalled` records whether the
deferred `tx.Rollback()` actually ran: the deferred closure tests the
function-scoped `err`, and every failing statement after `Begin` assigns a
freshly shadowed `err` (`:=` in an inner scope), so the function-scoped `err`
stays `nil` and the rollback branch is dead code. -/
structure LoadResult where
  committed : List (List String)
  execs : List (List (List String))
  commits : Nat
  rollbackCalled : Bool
  err : Option GoErr
  panicked : Bool
deriving DecidableEq, Repr

/-- Embedding of `populateMovies` (main.go) after the CSV file has been opened
and the header line read successfully: validate the header (on failure the
source prints and does `return err` — the function-scoped `err`, which is
`nil` here), begin the transaction, run the read/batch loop, flush any
non-empty remainder batch, and commit.  Every error return after `Begin`
returns a shadowed error variable, so the deferred rollback never fires
(`rollbackCalled := false` throughout, see `LoadResult`). -/
def populateMovies (ora : Oracle) (header : List String) (stream : List ReadItem) :
    LoadResult :=
  if validateHeaders "movies" header = true then
    if ora.beginOk = true then
      match moviesLoop ora stream ⟨[], [], [], 0, 0⟩ with
      | .crash st => ⟨[], st.execs, 0, false, none, true⟩
      | .insertFail st => ⟨[], st.execs, 0, false, some .insertErr, false⟩
      | .done st =>
        if st.batch.isEmpty then
          if ora.commitOk then
            ⟨st.pending, st.execs, 1, false, none, false⟩
          else
            ⟨[], st.execs, 0, false, some .commitErr, false⟩
        else
          if ora.execOk st.execIdx then
            if ora.commitOk then
              ⟨st.pending ++ st.batch, st.execs ++ [st.batch], 1, false, none, false⟩
            else
              ⟨[], st.execs ++ [st.batch], 0, false, some .commitErr, false⟩
          else
            ⟨[], st.execs ++ [st.batch], 0, false, some .insertErr, false⟩
    else
      ⟨[], [], 0, false, some .beginErr, false⟩
  else
    ⟨[], [], 0, false, none, false⟩

/-- The `for` loop of `populateMoviesGenres`: identical to `moviesLoop` except
that each record contributes its two fields. -/
def genresLoop (ora : Oracle) : List ReadItem → MState → LoopOut
  | [], st => .done st
  | .bad :: rest, st => genresLoop ora rest st
  | .ok r :: rest, st =>
    match extract2 r with
    | none => .crash st
    | some row =>
      let b := st.batch ++ [row]
      if b.length = 100 then
        if ora.execOk st.execIdx then
          genresLoop ora rest
            ⟨[], st.pending ++ b, st.execs ++ [b], st.execIdx + 1, st.totalMovies + 100⟩
        else
          .insertFail ⟨b, st.pending, st.execs ++ [b], st.execIdx + 1, st.totalMovies⟩
      else
        genresLoop ora rest { st with batch := b }

/-- Embedding of `populateMoviesGenres` (main.go), structured exactly like
`populateMovies` (the source duplicates the loader): two-column records,
table name `movies_genres`, and the same nil-returning validation branch and
dead deferred rollback. -/
def populateMoviesGenres (ora : Oracle) (header : List String)
    (stream : List ReadItem) : LoadResult :=
  if validateHeaders "movies_genres" header = true then
    if ora.beginOk = true then
      match genresLoop ora stream ⟨[], [], [], 0, 0⟩ with
      | .crash st => ⟨[], st.execs, 0, false, none, true⟩
      | .insertFail st => ⟨[], st.execs, 0, false, some .insertErr, false⟩
      | .done st =>
        if st.batch.isEmpty then
          if ora.commitOk then
            ⟨st.pending, st.execs, 1, false, none, false⟩
          else
            ⟨[], st.execs, 0, false, some .commitErr, false⟩
        else
          if ora.execOk st.execIdx then
            if ora.commitOk then
              ⟨st.pending ++ st.batch, st.execs ++ [st.batch], 1, false, none, false⟩
            else
              ⟨[], st.execs ++ [st.batch], 0, false, some .commitErr, false⟩
          else
            ⟨[], st.execs ++ [st.batch], 0, false, some .insertErr, false⟩
    else
      ⟨[], [], 0, false, some .beginErr, false⟩
  else
    ⟨[], [], 0, false, none, false⟩

/-- The rows the loop actually buffers: the four extracted fields of every
successfully decoded record, in stream order. -/
def goodRows (stream : List ReadItem) : List (List String) :=
  stream.filterMap fun i =>
    match i with
    | .ok r => extract4 r
    | .bad => none

/-- Two-column analogue of `goodRows` for the genres loader. -/
def goodRows2 (stream : List ReadItem) : List (List String) :=
  stream.filterMap fun i =>
    match i with
    | .ok r => extract2 r
    | .bad => none

/-- Expected batch-size sequence for `n` buffered rows and capacity 100:
`n / 100` full batches followed by one remainder batch of `n % 100` rows when
`n` is not a multiple of 100. -/
def batchPattern (n : Nat) : List Nat :=
  List.replicate (n / 100) 100 ++ (if n % 100 = 0 then [] else [n % 100])

/-- A storage engine that accepts everything. -/
def allOk : Oracle := ⟨true, fun _ => true, true⟩

/-- The expected movies header. -/
def hdrMovies : List String := ["id", "name", "year", "rank"]

/-- Modelled from the spec: one physical data line of the CSV source, as seen
by the Go `encoding/csv` reader (not part of this repository).  `fields` are
the decoded field values and `unescapedQuote` says whether the line contains a
bare quote character that only lenient (`LazyQuotes`) parsing tolerates. -/
structure RawRow where
  fields : List String
  unescapedQuote : Bool
deriving DecidableEq, Repr

/-- Modelled from the spec: the Go `encoding/csv` `Read` step for one data
line (the reader itself is external to the repository).  A line decodes
successfully iff its quoting is acceptable (`LazyQuotes` set, or no unescaped
quote) and its field count equals the header's field count
(`FieldsPerRecord` is fixed from the first line read); otherwise `Read`
returns an error and the loader skips the row. -/
def readRow (lazyQuotes : Bool) (headerLen : Nat) (r : RawRow) : ReadItem :=
  if (!r.unescapedQuote || lazyQuotes) && r.fields.length == headerLen then
    .ok r.fields
  else
    .bad

/-- Modelled from the spec: the reader applied to the whole data portion of
the stream. -/
def readerStream (lazyQuotes : Bool) (headerLen : Nat) (raws : List RawRow) :
    List ReadItem :=
  raws.map (readRow lazyQuotes headerLen)

/-- `populateMovies` fed by the modelled reader, with `LazyQuotes = true` as
set in the source and `FieldsPerRecord` fixed from the header line. -/
def populateMoviesFromRaw (ora : Oracle) (header : List String)
    (raws : List RawRow) : LoadResult :=
  populateMovies ora header (readerStream true header.length raws)

/-- `populateMoviesGenres` fed by the modelled reader. -/
def populateMoviesGenresFromRaw (ora : Oracle) (header : List String)
    (raws : List RawRow) : LoadResult :=
  populateMoviesGenres ora header (readerStream true header.length raws)

/-- A value stored in the `rank REAL` column.  SQLite's REAL affinity stores a
numeric-looking bound text as a real and other text (such as the corpus's
literal `NULL` strings) as text; `NULL` proper is a distinct value.  (SQLite's
numeric-prefix coercion of other text inside aggregates is not modelled; the
theorems about the query restrict rank values to these shapes.) -/
inductive SqlVal where
  | vNull
  | vReal (q : ℚ)
  | vText (s : String)
deriving DecidableEq, Repr

/-- A committed row of the `movies` table. -/
structure MovieRow where
  id : Int
  name : String
  year : Int
  rank : SqlVal
deriving DecidableEq, Repr

/-- A committed row of the `movies_genres` table. -/
structure GenreRow where
  movie_id : Int
  genre : String
deriving DecidableEq, Repr

/-- One result row of the first reporting query
(`genre, AVG(m.rank) AS avg_rank, COUNT(m.id) AS movie_count`). -/
structure AggRow where
  genre : String
  avg_rank : ℚ
  movie_count : Nat
deriving DecidableEq, Repr

/-- The `WHERE m.rank IS NOT NULL AND m.rank != 'NULL'` filter.  In SQLite a
numeric value compared to the text `'NULL'` is always unequal (numerics order
before text), and a text value is unequal iff it differs from `NULL`. -/
def rankKept : SqlVal → Bool
  | .vNull => false
  | .vReal _ => true
  | .vText s => s != "NULL"

/-- The joined, filtered rows of
`FROM movies_genres mg JOIN movies m ON mg.movie_id = m.id WHERE ...`,
keeping the two columns the query aggregates over (`mg.genre`, `m.rank`). -/
def joinedRows (ms : List MovieRow) (gs : List GenreRow) : List (String × SqlVal) :=
  gs.flatMap fun mg =>
    (ms.filter fun m => m.id == mg.movie_id && rankKept m.rank).map fun m =>
      (mg.genre, m.rank)

/-- Numeric value SQLite aggregates a stored rank as (see `SqlVal`). -/
def sqlToNum : SqlVal → ℚ
  | .vReal q => q
  | .vNull => 0
  | .vText _ => 0

/-- One aggregated output row for a `GROUP BY mg.genre, m.rank` group key:
`AVG(m.rank)` and `COUNT(m.id)` over the joined rows with that key. -/
def aggFor (j : List (String × SqlVal)) (k : String × SqlVal) : AggRow :=
  let grp := j.filter fun x => decide (x = k)
  { genre := k.1
    avg_rank := (grp.map fun x => sqlToNum x.2).sum / (grp.length : ℚ)
    movie_count := grp.length }

/-- The grouped rows: one `AggRow` per distinct `(genre, rank)` key of the
joined rows — the query's `GROUP BY mg.genre, m.rank`. -/
def aggRows (ms : List MovieRow) (gs : List GenreRow) : List AggRow :=
  ((joinedRows ms gs).dedup).map (aggFor (joinedRows ms gs))

/-- `ORDER BY avg_rank DESC` as a relation on result rows. -/
def aggGE (a b : AggRow) : Prop := b.avg_rank ≤ a.avg_rank

instance : DecidableRel aggGE := fun a b =>
  inferInstanceAs (Decidable (b.avg_rank ≤ a.avg_rank))

instance : IsTotal AggRow aggGE := ⟨fun a b => le_total b.avg_rank a.avg_rank⟩

instance : IsTrans AggRow aggGE := ⟨fun _ _ _ h1 h2 => le_trans h2 h1⟩

/-- Embedding of the SQL of `queryDbHighestRatedGenres` (main.go): join,
filter, group by `(mg.genre, m.rank)`, aggregate, `ORDER BY avg_rank DESC`,
`LIMIT 20`. -/
def queryDbHighestRatedGenres (ms : List MovieRow) (gs : List GenreRow) :
    List AggRow :=
  (List.insertionSort aggGE (aggRows ms gs)).take 20

/-- A storage engine that accepts the transaction and the commit but rejects
every batch insert. -/
def failFirstExec : Oracle := ⟨true, fun _ => false, true⟩

/-- A storage engine that accepts everything except the final commit. -/
def failCommit : Oracle := ⟨true, fun _ => true, false⟩

/-- 100 well-formed movie records. -/
def stream100 : List ReadItem :=
  List.replicate 100 (ReadItem.ok ["1", "A", "1999", "7.4"])

/-- 250 well-formed movie records (the spec's batching scenario). -/
def stream250 : List ReadItem :=
  List.replicate 250 (ReadItem.ok ["1", "A", "1999", "7.4"])

/-- One raw CSV line whose name field contains an unescaped quote. -/
def rawsQuote : List RawRow := [⟨["1", "A", "1999", "7.4"], true⟩]

/-- Two movies with distinct numeric ranks, both in the same genre. -/
def msCex : List MovieRow :=
  [⟨1, "A", 2000, SqlVal.vReal 7⟩, ⟨2, "B", 2001, SqlVal.vReal 5⟩]

/-- Genre rows putting both movies of `msCex` in genre Drama. -/
def gsCex : List GenreRow := [⟨1, "Drama"⟩, ⟨2, "Drama"⟩]

/-- Char-level view of `goJoinComma`, used to reason about when two header
lists produce the same joined string. -/
def joinCommaC : List (List Char) → List Char
  | [] => []
  | [s] => s
  | s :: s2 :: rest => s ++ ',' :: joinCommaC (s2 :: rest)

theorem joinCommaC_cons2 (x x2 : List Char) (t : List (List Char)) :
    joinCommaC (x :: x2 :: t) = x ++ ',' :: joinCommaC (x2 :: t) := rfl

theorem goJoinComma_data :
    ∀ xs : List String, (goJoinComma xs).data = joinCommaC (xs.map String.data)
  | [] => rfl
  | [_] => rfl
  | s :: s2 :: rest => by
    simp only [goJoinComma, List.map_cons, joinCommaC_cons2, String.data_append,
      goJoinComma_data (s2 :: rest)]
    rw [List.append_assoc]
    rfl

theorem comma_split :
    ∀ (l1 l2 r1 r2 : List Char), ',' ∉ l1 → ',' ∉ l2 →
      l1 ++ ',' :: r1 = l2 ++ ',' :: r2 → l1 = l2 ∧ r1 = r2 := by
  intro l1
  induction l1 with
  | nil =>
    intro l2 r1 r2 _ h2 heq
    cases l2 with
    | nil => simpa using heq
    | cons c t =>
      exfalso
      simp only [List.nil_append, List.cons_append, List.cons.injEq] at heq
      exact h2 (heq.1 ▸ List.mem_cons_self c t)
  | cons c t ih =>
    intro l2 r1 r2 h1 h2 heq
    cases l2 with
    | nil =>
      exfalso
      simp only [List.nil_append, List.cons_append, List.cons.injEq] at heq
      exact h1 (heq.1 ▸ List.mem_cons_self c t)
    | cons c2 t2 =>
      simp only [List.cons_append, List.cons.injEq] at heq
      obtain ⟨rfl, heq⟩ := heq
      obtain ⟨rfl, rfl⟩ := ih t2 r1 r2 (fun hm => h1 (List.mem_cons_of_mem _ hm))
        (fun hm => h2 (List.mem_cons_of_mem _ hm)) heq
      exact ⟨rfl, rfl⟩

theorem joinCommaC_inj :
    ∀ xs ys : List (List Char), (∀ s ∈ xs, ',' ∉ s) → (∀ s ∈ ys, ',' ∉ s) →
      xs ≠ [] → ys ≠ [] → joinCommaC xs = joinCommaC ys → xs = ys := by
  intro xs
  induction xs with
  | nil => intro ys _ _ hne _ _; exact absurd rfl hne
  | cons x t ih =>
    intro ys hxs hys _ hyne hj
    cases ys with
    | nil => exact absurd rfl hyne
    | cons y t2 =>
      cases t with
      | nil =>
        cases t2 with
        | nil =>
          simp only [joinCommaC] at hj
          simp [hj]
        | cons y2 t3 =>
          exfalso
          simp only [joinCommaC, joinCommaC_cons2] at hj
          refine hxs x (List.mem_cons_self x []) ?_
          rw [hj]
          exact List.mem_append_right _ (List.mem_cons_self _ _)
      | cons x2 t3 =>
        cases t2 with
        | nil =>
          exfalso
          simp only [joinCommaC, joinCommaC_cons2] at hj
          refine hys y (List.mem_cons_self y []) ?_
          rw [← hj]
          exact List.mem_append_right _ (List.mem_cons_self _ _)
        | cons y2 t4 =>
          rw [joinCommaC_cons2, joinCommaC_cons2] at hj
          obtain ⟨rfl, hj2⟩ := comma_split x y _ _
            (hxs x (List.mem_cons_self _ _)) (hys y (List.mem_cons_self _ _)) hj
          have ht := ih (y2 :: t4) (fun s hs => hxs s (List.mem_cons_of_mem _ hs))
            (fun s hs => hys s (List.mem_cons_of_mem _ hs))
            (List.cons_ne_nil _ _) (List.cons_ne_nil _ _) hj2
          rw [ht]

theorem extract4_eq (r : List String) (h : 4 ≤ r.length) :
    extract4 r = some (r.take 4) := by
  rcases r with _ | ⟨a, _ | ⟨b, _ | ⟨c, _ | ⟨d, t⟩⟩⟩⟩
  · simp at h
  · simp at h
  · simp at h
  · simp at h
  · rfl

theorem extract2_eq (r : List String) (h : 2 ≤ r.length) :
    extract2 r = some (r.take 2) := by
  rcases r with _ | ⟨a, _ | ⟨b, t⟩⟩
  · simp at h
  · simp at h
  · rfl

theorem goodRows_nil : goodRows [] = [] := rfl

theorem goodRows_bad (rest : List ReadItem) :
    goodRows (.bad :: rest) = goodRows rest := rfl

theorem goodRows_ok (r : List String) (row : List String) (rest : List ReadItem)
    (h : extract4 r = some row) :
    goodRows (.ok r :: rest) = row :: goodRows rest := by
  simp [goodRows, List.filterMap_cons, h]

theorem goodRows_length (stream : List ReadItem)
    (hw : ∀ r, ReadItem.ok r ∈ stream → 4 ≤ r.length) :
    (goodRows stream).length = stream.countP ReadItem.isOk := by
  induction stream with
  | nil => rfl
  | cons it rest ih =>
    have ih2 := ih fun r hr => hw r (List.mem_cons_of_mem _ hr)
    cases it with
    | bad =>
      rw [goodRows_bad, List.countP_cons]
      simp [ReadItem.isOk, ih2]
    | ok r =>
      have h4 := hw r (List.mem_cons_self _ _)
      rw [goodRows_ok r (r.take 4) rest (extract4_eq r h4), List.countP_cons]
      simp [ReadItem.isOk, ih2]

theorem moviesLoop_nil (ora : Oracle) (st : MState) :
    moviesLoop ora [] st = .done st := rfl

theorem moviesLoop_bad (ora : Oracle) (rest : List ReadItem) (st : MState) :
    moviesLoop ora (.bad :: rest) st = moviesLoop ora rest st := rfl

theorem moviesLoop_okItem (ora : Oracle) (r row : List String)
    (rest : List ReadItem) (st : MState) (h : extract4 r = some row) :
    moviesLoop ora (.ok r :: rest) st =
      if (st.batch ++ [row]).length = 100 then
        if ora.execOk st.execIdx then
          moviesLoop ora rest
            ⟨[], st.pending ++ (st.batch ++ [row]), st.execs ++ [st.batch ++ [row]],
              st.execIdx + 1, st.totalMovies + 100⟩
        else
          .insertFail ⟨st.batch ++ [row], st.pending, st.execs ++ [st.batch ++ [row]],
            st.execIdx + 1, st.totalMovies⟩
      else
        moviesLoop ora rest { st with batch := st.batch ++ [row] } := by
  simp only [moviesLoop, h]

theorem moviesLoop_crashItem (ora : Oracle) (r : List String)
    (rest : List ReadItem) (st : MState) (h : extract4 r = none) :
    moviesLoop ora (.ok r :: rest) st = .crash st := by
  simp only [moviesLoop, h]

theorem batchSplit_step {α : Type} (b l : List α) (hb : b.length = 100) :
    (b ++ l).take (100 * ((b ++ l).length / 100)) = b ++ l.take (100 * (l.length / 100)) ∧
    (b ++ l).drop (100 * ((b ++ l).length / 100)) = l.drop (100 * (l.length / 100)) ∧
    (b ++ l).length / 100 = l.length / 100 + 1 := by
  have hlen : (b ++ l).length = b.length + l.length := List.length_append _ _
  have hdiv : (b ++ l).length / 100 = l.length / 100 + 1 := by omega
  have harith : 100 * ((b ++ l).length / 100) = b.length + 100 * (l.length / 100) := by
    omega
  exact ⟨by rw [harith, List.take_append], by rw [harith, List.drop_append], hdiv⟩

theorem moviesLoop_allOk (ora : Oracle) (he : ∀ i, ora.execOk i = true) :
    ∀ (stream : List ReadItem) (st : MState),
      st.batch.length < 100 →
      (∀ r, ReadItem.ok r ∈ stream → 4 ≤ r.length) →
      ∃ st2, moviesLoop ora stream st = .done st2 ∧
        st2.batch = (st.batch ++ goodRows stream).drop
          (100 * ((st.batch ++ goodRows stream).length / 100)) ∧
        st2.pending = st.pending ++ (st.batch ++ goodRows stream).take
          (100 * ((st.batch ++ goodRows stream).length / 100)) ∧
        st2.execs.map List.length = st.execs.map List.length ++
          List.replicate ((st.batch ++ goodRows stream).length / 100) 100 ∧
        st2.execs.flatten = st.execs.flatten ++ (st.batch ++ goodRows stream).take
          (100 * ((st.batch ++ goodRows stream).length / 100)) := by
  intro stream
  induction stream with
  | nil =>
    intro st h100 _
    refine ⟨st, rfl, ?_, ?_, ?_, ?_⟩ <;>
      simp [goodRows_nil, Nat.div_eq_of_lt h100]
  | cons it rest ih =>
    intro st h100 hw
    cases it with
    | bad =>
      have h := ih st h100 (fun r hr => hw r (List.mem_cons_of_mem _ hr))
      simpa [moviesLoop_bad, goodRows_bad] using h
    | ok r =>
      have h4 := hw r (List.mem_cons_self _ _)
      have hex := extract4_eq r h4
      rw [moviesLoop_okItem ora r (r.take 4) rest st hex,
        goodRows_ok r (r.take 4) rest hex,
        List.append_cons st.batch (r.take 4) (goodRows rest)]
      by_cases hb : (st.batch ++ [r.take 4]).length = 100
      · rw [if_pos hb, he st.execIdx, if_pos rfl]
        obtain ⟨hTake, hDrop, hDiv⟩ := batchSplit_step (st.batch ++ [r.take 4])
          (goodRows rest) hb
        obtain ⟨st2, heq, hbatch, hpend, hmap, hflat⟩ :=
          ih ⟨[], st.pending ++ (st.batch ++ [r.take 4]),
              st.execs ++ [st.batch ++ [r.take 4]], st.execIdx + 1,
              st.totalMovies + 100⟩
            (by simp) (fun r2 hr => hw r2 (List.mem_cons_of_mem _ hr))
        simp only [List.nil_append] at hbatch hpend hmap hflat
        refine ⟨st2, heq, ?_, ?_, ?_, ?_⟩
        · rw [hDrop]; exact hbatch
        · rw [hTake, hpend, List.append_assoc]
        · rw [hDiv, hmap, List.map_append]
          simp [hb, List.replicate_succ, List.append_assoc]
        · rw [hTake, hflat]
          simp [List.append_assoc]
      · rw [if_neg hb]
        have hlt : (st.batch ++ [r.take 4]).length < 100 := by
          have := List.length_append st.batch [r.take 4]
          simp only [List.length_singleton] at this
          omega
        have h := ih { st with batch := st.batch ++ [r.take 4] } hlt
          (fun r2 hr => hw r2 (List.mem_cons_of_mem _ hr))
        simpa using h

theorem populateMovies_success (ora : Oracle) (header : List String)
    (stream : List ReadItem) (hbg : ora.beginOk = true)
    (he : ∀ i, ora.execOk i = true) (hc : ora.commitOk = true)
    (hv : validateHeaders "movies" header = true)
    (hw : ∀ r, ReadItem.ok r ∈ stream → 4 ≤ r.length) :
    (populateMovies ora header stream).committed = goodRows stream ∧
    (populateMovies ora header stream).commits = 1 ∧
    (populateMovies ora header stream).err = none ∧
    (populateMovies ora header stream).panicked = false ∧
    (populateMovies ora header stream).execs.map List.length
      = batchPattern (goodRows stream).length ∧
    (populateMovies ora header stream).execs.flatten = goodRows stream := by
  obtain ⟨st2, heq, hbatch, hpend, hmap, hflat⟩ :=
    moviesLoop_allOk ora he stream ⟨[], [], [], 0, 0⟩ (by simp) hw
  simp only [List.nil_append, List.map_nil, List.flatten_nil] at hbatch hpend hmap hflat
  have hblen : st2.batch.length = (goodRows stream).length % 100 := by
    rw [hbatch, List.length_drop]; omega
  by_cases hm : (goodRows stream).length % 100 = 0
  · have hnil : st2.batch = [] := List.length_eq_zero.mp (by omega)
    have htk : 100 * ((goodRows stream).length / 100) = (goodRows stream).length := by
      omega
    have hres : populateMovies ora header stream =
        ⟨st2.pending, st2.execs, 1, false, none, false⟩ := by
      unfold populateMovies
      rw [if_pos hv, if_pos hbg, heq]
      simp [hnil, hc]
    rw [hres]
    refine ⟨?_, rfl, rfl, rfl, ?_, ?_⟩
    · rw [hpend, htk, List.take_length]
    · rw [hmap]; simp [batchPattern, hm]
    · rw [hflat, htk, List.take_length]
  · have hne : st2.batch ≠ [] := by
      intro h
      rw [h] at hblen
      simp at hblen
      omega
    have hres : populateMovies ora header stream =
        ⟨st2.pending ++ st2.batch, st2.execs ++ [st2.batch], 1, false, none, false⟩ := by
      unfold populateMovies
      rw [if_pos hv, if_pos hbg, heq]
      simp [List.isEmpty_iff, hne, he st2.execIdx, hc]
    rw [hres]
    refine ⟨?_, rfl, rfl, rfl, ?_, ?_⟩
    · rw [hpend, hbatch, List.take_append_drop]
    · rw [List.map_append, hmap]
      simp [batchPattern, hm, hblen]
    · rw [List.flatten_append, hflat]
      simp [hbatch, List.take_append_drop]

theorem genresLoop_nil (ora : Oracle) (st : MState) :
    genresLoop ora [] st = .done st := rfl

theorem genresLoop_bad (ora : Oracle) (rest : List ReadItem) (st : MState) :
    genresLoop ora (.bad :: rest) st = genresLoop ora rest st := rfl

theorem genresLoop_okItem (ora : Oracle) (r row : List String)
    (rest : List ReadItem) (st : MState) (h : extract2 r = some row) :
    genresLoop ora (.ok r :: rest) st =
      if (st.batch ++ [row]).length = 100 then
        if ora.execOk st.execIdx then
          genresLoop ora rest
            ⟨[], st.pending ++ (st.batch ++ [row]), st.execs ++ [st.batch ++ [row]],
              st.execIdx + 1, st.totalMovies + 100⟩
        else
          .insertFail ⟨st.batch ++ [row], st.pending, st.execs ++ [st.batch ++ [row]],
            st.execIdx + 1, st.totalMovies⟩
      else
        genresLoop ora rest { st with batch := st.batch ++ [row] } := by
  simp only [genresLoop, h]

theorem genresLoop_crashItem (ora : Oracle) (r : List String)
    (rest : List ReadItem) (st : MState) (h : extract2 r = none) :
    genresLoop ora (.ok r :: rest) st = .crash st := by
  simp only [genresLoop, h]

theorem moviesLoop_noPanic (ora : Oracle) :
    ∀ (stream : List ReadItem) (st : MState),
      (∀ r, ReadItem.ok r ∈ stream → 4 ≤ r.length) →
      ∀ st2, moviesLoop ora stream st ≠ .crash st2 := by
  intro stream
  induction stream with
  | nil => intro st _ st2 h; rw [moviesLoop_nil] at h; cases h
  | cons it rest ih =>
    intro st hw st2 h
    cases it with
    | bad =>
      rw [moviesLoop_bad] at h
      exact ih st (fun r hr => hw r (List.mem_cons_of_mem _ hr)) st2 h
    | ok r =>
      have h4 := hw r (List.mem_cons_self _ _)
      rw [moviesLoop_okItem ora r (r.take 4) rest st (extract4_eq r h4)] at h
      have hw2 := fun r2 hr => hw r2 (List.mem_cons_of_mem _ hr)
      by_cases hb : (st.batch ++ [r.take 4]).length = 100
      · rw [if_pos hb] at h
        cases hoe : ora.execOk st.execIdx <;> rw [hoe] at h
        · simp only [Bool.false_eq_true, if_false] at h; cases h
        · simp only [if_true] at h; exact ih _ hw2 st2 h
      · rw [if_neg hb] at h
        exact ih _ hw2 st2 h

theorem genresLoop_noPanic (ora : Oracle) :
    ∀ (stream : List ReadItem) (st : MState),
      (∀ r, ReadItem.ok r ∈ stream → 2 ≤ r.length) →
      ∀ st2, genresLoop ora stream st ≠ .crash st2 := by
  intro stream
  induction stream with
  | nil => intro st _ st2 h; rw [genresLoop_nil] at h; cases h
  | cons it rest ih =>
    intro st hw st2 h
    cases it with
    | bad =>
      rw [genresLoop_bad] at h
      exact ih st (fun r hr => hw r (List.mem_cons_of_mem _ hr)) st2 h
    | ok r =>
      have h2 := hw r (List.mem_cons_self _ _)
      rw [genresLoop_okItem ora r (r.take 2) rest st (extract2_eq r h2)] at h
      have hw2 := fun r2 hr => hw r2 (List.mem_cons_of_mem _ hr)
      by_cases hb : (st.batch ++ [r.take 2]).length = 100
      · rw [if_pos hb] at h
        cases hoe : ora.execOk st.execIdx <;> rw [hoe] at h
        · simp only [Bool.false_eq_true, if_false] at h; cases h
        · simp only [if_true] at h; exact ih _ hw2 st2 h
      · rw [if_neg hb] at h
        exact ih _ hw2 st2 h

theorem moviesLoop_sizes (ora : Oracle) :
    ∀ (stream : List ReadItem) (st : MState),
      st.batch.length < 100 →
      (∀ b ∈ st.execs, 1 ≤ b.length ∧ b.length ≤ 100) →
      (∀ st2, moviesLoop ora stream st = .done st2 →
        (∀ b ∈ st2.execs, 1 ≤ b.length ∧ b.length ≤ 100) ∧ st2.batch.length < 100) ∧
      (∀ st2, moviesLoop ora stream st = .insertFail st2 →
        ∀ b ∈ st2.execs, 1 ≤ b.length ∧ b.length ≤ 100) ∧
      (∀ st2, moviesLoop ora stream st = .crash st2 →
        ∀ b ∈ st2.execs, 1 ≤ b.length ∧ b.length ≤ 100) := by
  intro stream
  induction stream with
  | nil =>
    intro st h100 hex
    refine ⟨?_, ?_, ?_⟩
    · intro st2 h; rw [moviesLoop_nil] at h; cases h; exact ⟨hex, h100⟩
    · intro st2 h; rw [moviesLoop_nil] at h; cases h
    · intro st2 h; rw [moviesLoop_nil] at h; cases h
  | cons it rest ih =>
    intro st h100 hex
    cases it with
    | bad =>
      simp only [moviesLoop_bad]
      exact ih st h100 hex
    | ok r =>
      cases hex4 : extract4 r with
      | none =>
        simp only [moviesLoop_crashItem ora r rest st hex4]
        refine ⟨?_, ?_, ?_⟩
        · intro st2 h; cases h
        · intro st2 h; cases h
        · intro st2 h; cases h; exact hex
      | some row =>
        simp only [moviesLoop_okItem ora r row rest st hex4]
        have hexNew : ∀ b2 ∈ st.execs ++ [st.batch ++ [row]],
            (st.batch ++ [row]).length = 100 → 1 ≤ b2.length ∧ b2.length ≤ 100 := by
          intro b2 hm hb
          rcases List.mem_append.mp hm with hm | hm
          · exact hex b2 hm
          · rcases List.mem_singleton.mp hm with rfl
            omega
        by_cases hb : (st.batch ++ [row]).length = 100
        · rw [if_pos hb]
          cases hoe : ora.execOk st.execIdx
          · simp only [Bool.false_eq_true, if_false]
            refine ⟨?_, ?_, ?_⟩
            · intro st2 h; cases h
            · intro st2 h; cases h
              exact fun b2 hm => hexNew b2 hm hb
            · intro st2 h; cases h
          · simp only [if_true]
            exact ih _ (by simp) (fun b2 hm => hexNew b2 hm hb)
        · rw [if_neg hb]
          have hlt : (st.batch ++ [row]).length < 100 := by
            have := List.length_append st.batch [row]
            simp only [List.length_singleton] at this
            omega
          exact ih _ hlt hex

theorem moviesLoop_le100 (ora : Oracle) :
    ∀ (stream : List ReadItem) (st : MState),
      st.batch.length < 100 →
      (∀ r, ReadItem.ok r ∈ stream → 4 ≤ r.length) →
      ((st.batch ++ goodRows stream).length < 100 →
        moviesLoop ora stream st = .done { st with batch := st.batch ++ goodRows stream }) ∧
      ((st.batch ++ goodRows stream).length = 100 →
        (ora.execOk st.execIdx = true →
          moviesLoop ora stream st = .done ⟨[], st.pending ++ (st.batch ++ goodRows stream),
            st.execs ++ [st.batch ++ goodRows stream], st.execIdx + 1, st.totalMovies + 100⟩) ∧
        (ora.execOk st.execIdx = false →
          moviesLoop ora stream st = .insertFail ⟨st.batch ++ goodRows stream, st.pending,
            st.execs ++ [st.batch ++ goodRows stream], st.execIdx + 1, st.totalMovies⟩)) := by
  intro stream
  induction stream with
  | nil =>
    intro st h100 _
    constructor
    · intro _
      rw [moviesLoop_nil]
      simp [goodRows_nil]
    · intro habs
      exfalso
      rw [goodRows_nil, List.append_nil] at habs
      omega
  | cons it rest ih =>
    intro st h100 hw
    have hw2 := fun r2 hr => hw r2 (List.mem_cons_of_mem _ hr)
    cases it with
    | bad =>
      simp only [moviesLoop_bad, goodRows_bad]
      exact ih st h100 hw2
    | ok r =>
      have h4 := hw r (List.mem_cons_self _ _)
      have hex := extract4_eq r h4
      simp only [moviesLoop_okItem ora r (r.take 4) rest st hex,
        goodRows_ok r (r.take 4) rest hex,
        List.append_cons st.batch (r.take 4) (goodRows rest)]
      by_cases hb : (st.batch ++ [r.take 4]).length = 100
      · rw [if_pos hb]
        constructor
        · intro habs
          exfalso
          rw [List.length_append (st.batch ++ [r.take 4]) (goodRows rest)] at habs
          omega
        · intro hT
          have hgr : goodRows rest = [] := by
            rw [List.length_append (st.batch ++ [r.take 4]) (goodRows rest)] at hT
            have : (goodRows rest).length = 0 := by omega
            exact List.length_eq_zero.mp this
          rw [hgr, List.append_nil]
          constructor
          · intro hoe
            rw [hoe, if_pos rfl]
            have hdone := (ih ⟨[], st.pending ++ (st.batch ++ [r.take 4]),
                st.execs ++ [st.batch ++ [r.take 4]], st.execIdx + 1,
                st.totalMovies + 100⟩ (by simp) hw2).1
            simp only [hgr, List.append_nil, List.nil_append] at hdone
            have hres := hdone (by simp)
            simpa using hres
          · intro hoe
            rw [hoe]
            simp
      · rw [if_neg hb]
        have hlt : (st.batch ++ [r.take 4]).length < 100 := by
          have := List.length_append st.batch [r.take 4]
          simp only [List.length_singleton] at this
          omega
        have hih := ih { st with batch := st.batch ++ [r.take 4] } hlt hw2
        simpa using hih

theorem populateMovies_spec (ora : Oracle) (hdr : List String) (stream : List ReadItem) :
    (populateMovies ora hdr stream).rollbackCalled = false ∧
    ((populateMovies ora hdr stream).committed ≠ [] →
      (populateMovies ora hdr stream).err = none ∧
      (populateMovies ora hdr stream).commits = 1 ∧
      (populateMovies ora hdr stream).panicked = false ∧
      ora.commitOk = true) ∧
    ((populateMovies ora hdr stream).err ≠ none ∨ ora.commitOk = false ∨
      (populateMovies ora hdr stream).panicked = true →
      (populateMovies ora hdr stream).committed = []) := by
  unfold populateMovies
  by_cases hv : validateHeaders "movies" hdr = true
  · rw [if_pos hv]
    by_cases hbg : ora.beginOk = true
    · rw [if_pos hbg]
      cases hL : moviesLoop ora stream ⟨[], [], [], 0, 0⟩ with
      | crash st => simp
      | insertFail st => simp
      | done st =>
        dsimp only
        by_cases hbe : st.batch.isEmpty = true
        · rw [if_pos hbe]
          by_cases hco : ora.commitOk = true
          · rw [if_pos hco]; simp [hco]
          · rw [if_neg hco]; simp
        · rw [if_neg hbe]
          by_cases hoe : ora.execOk st.execIdx = true
          · rw [if_pos hoe]
            by_cases hco : ora.commitOk = true
            · rw [if_pos hco]; simp [hco]
            · rw [if_neg hco]; simp
          · rw [if_neg hoe]; simp
    · rw [if_neg hbg]; simp
  · rw [if_neg hv]; simp

theorem populateMovies_badHeader (ora : Oracle) (hdr : List String)
    (stream : List ReadItem) (h : validateHeaders "movies" hdr = false) :
    populateMovies ora hdr stream = ⟨[], [], 0, false, none, false⟩ := by
  unfold populateMovies
  rw [if_neg (by simp [h])]

theorem populateMoviesGenres_badHeader (ora : Oracle) (hdr : List String)
    (stream : List ReadItem) (h : validateHeaders "movies_genres" hdr = false) :
    populateMoviesGenres ora hdr stream = ⟨[], [], 0, false, none, false⟩ := by
  unfold populateMoviesGenres
  rw [if_neg (by simp [h])]

theorem populateMovies_panicked (ora : Oracle) (hdr : List String)
    (stream : List ReadItem)
    (hw : ∀ r, ReadItem.ok r ∈ stream → 4 ≤ r.length) :
    (populateMovies ora hdr stream).panicked = false := by
  unfold populateMovies
  by_cases hv : validateHeaders "movies" hdr = true
  · rw [if_pos hv]
    by_cases hbg : ora.beginOk = true
    · rw [if_pos hbg]
      cases hL : moviesLoop ora stream ⟨[], [], [], 0, 0⟩ with
      | crash st => exact absurd hL (moviesLoop_noPanic ora stream _ hw st)
      | insertFail st => simp
      | done st =>
        dsimp only
        by_cases hbe : st.batch.isEmpty = true
        · rw [if_pos hbe]
          by_cases hco : ora.commitOk = true
          · rw [if_pos hco]
          · rw [if_neg hco]
        · rw [if_neg hbe]
          by_cases hoe : ora.execOk st.execIdx = true
          · rw [if_pos hoe]
            by_cases hco : ora.commitOk = true
            · rw [if_pos hco]
            · rw [if_neg hco]
          · rw [if_neg hoe]
    · rw [if_neg hbg]
  · rw [if_neg hv]

theorem populateMoviesGenres_panicked (ora : Oracle) (hdr : List String)
    (stream : List ReadItem)
    (hw : ∀ r, ReadItem.ok r ∈ stream → 2 ≤ r.length) :
    (populateMoviesGenres ora hdr stream).panicked = false := by
  unfold populateMoviesGenres
  by_cases hv : validateHeaders "movies_genres" hdr = true
  · rw [if_pos hv]
    by_cases hbg : ora.beginOk = true
    · rw [if_pos hbg]
      cases hL : genresLoop ora stream ⟨[], [], [], 0, 0⟩ with
      | crash st => exact absurd hL (genresLoop_noPanic ora stream _ hw st)
      | insertFail st => simp
      | done st =>
        dsimp only
        by_cases hbe : st.batch.isEmpty = true
        · rw [if_pos hbe]
          by_cases hco : ora.commitOk = true
          · rw [if_pos hco]
          · rw [if_neg hco]
        · rw [if_neg hbe]
          by_cases hoe : ora.execOk st.execIdx = true
          · rw [if_pos hoe]
            by_cases hco : ora.commitOk = true
            · rw [if_pos hco]
            · rw [if_neg hco]
          · rw [if_neg hoe]
    · rw [if_neg hbg]
  · rw [if_neg hv]

theorem readerStream_ok_length (lq : Bool) (L : Nat) (raws : List RawRow)
    (r : List String) (h : ReadItem.ok r ∈ readerStream lq L raws) :
    r.length = L := by
  unfold readerStream at h
  obtain ⟨raw, _, heq⟩ := List.mem_map.mp h
  unfold readRow at heq
  by_cases hcond : ((!raw.unescapedQuote || lq) && (raw.fields.length == L)) = true
  · rw [if_pos hcond] at heq
    cases heq
    simp only [Bool.and_eq_true, beq_iff_eq] at hcond
    exact hcond.2
  · rw [if_neg hcond] at heq
    cases heq

theorem goodRows_lenient_strict (raws : List RawRow) :
    (goodRows (readerStream true 4 raws)).length =
      (goodRows (readerStream false 4 raws)).length +
      raws.countP (fun r => r.unescapedQuote && r.fields.length == 4) := by
  induction raws with
  | nil => rfl
  | cons raw rest ih =>
    simp only [readerStream, List.map_cons] at ih ⊢
    rw [List.countP_cons]
    cases hq : raw.unescapedQuote
    · by_cases hl : raw.fields.length = 4
      · have e1 : readRow true 4 raw = .ok raw.fields := by simp [readRow, hq, hl]
        have e2 : readRow false 4 raw = .ok raw.fields := by simp [readRow, hq, hl]
        rw [e1, e2, goodRows_ok _ _ _ (extract4_eq _ (by omega)),
          goodRows_ok _ _ _ (extract4_eq _ (by omega))]
        simp [hq, hl]
        omega
      · have e1 : readRow true 4 raw = .bad := by simp [readRow, hq, hl]
        have e2 : readRow false 4 raw = .bad := by simp [readRow, hq, hl]
        rw [e1, e2, goodRows_bad, goodRows_bad]
        simp [hq, hl]
        omega
    · by_cases hl : raw.fields.length = 4
      · have e1 : readRow true 4 raw = .ok raw.fields := by simp [readRow, hq, hl]
        have e2 : readRow false 4 raw = .bad := by simp [readRow, hq]
        rw [e1, e2, goodRows_ok _ _ _ (extract4_eq _ (by omega)), goodRows_bad]
        simp [hq, hl]
        omega
      · have e1 : readRow true 4 raw = .bad := by simp [readRow, hq, hl]
        have e2 : readRow false 4 raw = .bad := by simp [readRow, hq, hl]
        rw [e1, e2, goodRows_bad, goodRows_bad]
        simp [hq, hl]
        omega

theorem batchPattern_getLast (n : Nat) (h : n % 100 ≠ 0) :
    (batchPattern n).getLast? = some (n % 100) := by
  unfold batchPattern
  rw [if_neg h]
  exact List.getLast?_concat _

theorem filter_eq_replicate {α : Type} [DecidableEq α] (j : List α) (k : α) :
    j.filter (fun x => decide (x = k)) =
      List.replicate (j.countP (fun x => decide (x = k))) k := by
  induction j with
  | nil => rfl
  | cons a l ih =>
    rw [List.filter_cons, List.countP_cons]
    by_cases h : a = k
    · subst h
      simp [ih, List.replicate_succ]
    · simp [h, ih]

theorem joinedRows_real (ms : List MovieRow) (gs : List GenreRow)
    (hr : ∀ m ∈ ms, m.rank = SqlVal.vNull ∨ (∃ q, m.rank = SqlVal.vReal q) ∨
      m.rank = SqlVal.vText "NULL") :
    ∀ p ∈ joinedRows ms gs, ∃ q : ℚ, p.2 = SqlVal.vReal q := by
  intro p hp
  unfold joinedRows at hp
  obtain ⟨mg, _, hp2⟩ := List.mem_flatMap.mp hp
  obtain ⟨m, hm, rfl⟩ := List.mem_map.mp hp2
  obtain ⟨hms, hflt⟩ := List.mem_filter.mp hm
  rcases hr m hms with hnull | ⟨q, hq⟩ | htext
  · rw [hnull] at hflt
    simp [rankKept] at hflt
  · exact ⟨q, hq⟩
  · rw [htext] at hflt
    simp [rankKept] at hflt

theorem aggFor_spec (j : List (String × SqlVal)) (k : String × SqlVal) (q : ℚ)
    (hk : k ∈ j) (hq : k.2 = SqlVal.vReal q) :
    (aggFor j k).genre = k.1 ∧ (aggFor j k).avg_rank = q ∧
    (aggFor j k).movie_count = j.countP (fun x => decide (x = k)) ∧
    1 ≤ (aggFor j k).movie_count := by
  have hc : 0 < j.countP (fun x => decide (x = k)) :=
    List.countP_pos_iff.mpr ⟨k, hk, by simp⟩
  unfold aggFor
  rw [filter_eq_replicate]
  refine ⟨rfl, ?_, by simp, by simp only [List.length_replicate]; omega⟩
  dsimp only
  rw [List.map_replicate, List.length_replicate, List.sum_replicate, hq]
  simp only [sqlToNum, nsmul_eq_mul]
  rw [mul_div_cancel_left₀]
  exact Nat.cast_ne_zero.mpr (by omega)

theorem countP_isBad_isOk (stream : List ReadItem) :
    stream.countP ReadItem.isBad + stream.countP ReadItem.isOk = stream.length := by
  induction stream with
  | nil => rfl
  | cons it rest ih =>
    rw [List.countP_cons, List.countP_cons]
    cases it <;> simp [ReadItem.isOk, ReadItem.isBad] <;> omega

theorem populateMovies_execs_sizes (ora : Oracle) (hdr : List String)
    (stream : List ReadItem) :
    ∀ b ∈ (populateMovies ora hdr stream).execs, 1 ≤ b.length ∧ b.length ≤ 100 := by
  unfold populateMovies
  by_cases hv : validateHeaders "movies" hdr = true
  · rw [if_pos hv]
    by_cases hbg : ora.beginOk = true
    · rw [if_pos hbg]
      obtain ⟨hdone, hfail, hcrash⟩ :=
        moviesLoop_sizes ora stream ⟨[], [], [], 0, 0⟩ (by simp) (by simp)
      cases hL : moviesLoop ora stream ⟨[], [], [], 0, 0⟩ with
      | crash st => exact hcrash st hL
      | insertFail st => exact hfail st hL
      | done st =>
        dsimp only
        obtain ⟨hsz, hlt⟩ := hdone st hL
        by_cases hbe : st.batch.isEmpty = true
        · rw [if_pos hbe]
          by_cases hco : ora.commitOk = true
          · rw [if_pos hco]; exact hsz
          · rw [if_neg hco]; exact hsz
        · have hpos : 1 ≤ st.batch.length := by
            rcases Nat.eq_zero_or_pos st.batch.length with h0 | h1
            · exact absurd (by simp [List.isEmpty_iff, List.length_eq_zero.mp h0]) hbe
            · exact h1
          have hnew : ∀ b ∈ st.execs ++ [st.batch], 1 ≤ b.length ∧ b.length ≤ 100 := by
            intro b hm
            rcases List.mem_append.mp hm with hm | hm
            · exact hsz b hm
            · rcases List.mem_singleton.mp hm with rfl
              omega
          rw [if_neg hbe]
          by_cases hoe : ora.execOk st.execIdx = true
          · rw [if_pos hoe]
            by_cases hco : ora.commitOk = true
            · rw [if_pos hco]; exact hnew
            · rw [if_neg hco]; exact hnew
          · rw [if_neg hoe]; exact hnew
    · rw [if_neg hbg]; simp
  · rw [if_neg hv]; simp

theorem stream100_wf : ∀ r, ReadItem.ok r ∈ stream100 → 4 ≤ r.length := by
  intro r hr
  have h := List.eq_of_mem_replicate hr
  cases h
  decide

theorem stream250_wf : ∀ r, ReadItem.ok r ∈ stream250 → 4 ≤ r.length := by
  intro r hr
  have h := List.eq_of_mem_replicate hr
  cases h
  decide

/-- C1 (confirmed): a load of one table is all-or-nothing.  If the returned
error is non-nil (any batch insert or the commit failed), or the commit was
bound to fail, or the load panicked, then no rows of this load are in the
destination table after the function returns — including rows of batches that
were inserted without error inside the open transaction; conversely rows are
present only when the load returned nil after committing exactly once with an
accepting commit. -/
theorem loadTransaction_atomic_C1 (ora : Oracle) (hdr : List String)
    (stream : List ReadItem) :
    ((populateMovies ora hdr stream).err ≠ none ∨ ora.commitOk = false ∨
      (populateMovies ora hdr stream).panicked = true →
      (populateMovies ora hdr stream).committed = []) ∧
    ((populateMovies ora hdr stream).committed ≠ [] →
      (populateMovies ora hdr stream).err = none ∧
      (populateMovies ora hdr stream).commits = 1 ∧
      ora.commitOk = true) := by
  obtain ⟨-, h2, h3⟩ := populateMovies_spec ora hdr stream
  exact ⟨h3, fun h => ⟨(h2 h).1, (h2 h).2.1, (h2 h).2.2.2⟩⟩

/-- C1 witness: with one full batch inserted without error but a rejected
commit, the table is empty after the load. -/
theorem loadTransaction_atomic_C1_witness :
    (populateMovies failCommit hdrMovies stream100).committed = [] :=
  (loadTransaction_atomic_C1 failCommit hdrMovies stream100).1
    (Or.inr (Or.inl rfl))

/-- C3 (code_bug): when header validation fails, both populate functions read
no data row into a batch, execute no insert, never begin the transaction and
never commit — but the Go return value is `nil` (`none`), not a non-nil
error: the source does `return err` with the stale function-scoped `err`,
which is nil after the successful header read, so the schema mismatch does
not propagate to the caller as a failure. -/
theorem badHeader_nilError_C3 :
    (∀ (ora : Oracle) (hdr : List String) (stream : List ReadItem),
      validateHeaders "movies" hdr = false →
      populateMovies ora hdr stream = ⟨[], [], 0, false, none, false⟩) ∧
    (∀ (ora : Oracle) (hdr : List String) (stream : List ReadItem),
      validateHeaders "movies_genres" hdr = false →
      populateMoviesGenres ora hdr stream = ⟨[], [], 0, false, none, false⟩) :=
  ⟨populateMovies_badHeader, populateMoviesGenres_badHeader⟩

/-- C3 witness: a swapped header fails validation and the load returns with no
batches, no commits and a nil error. -/
theorem badHeader_nilError_C3_witness :
    populateMovies allOk ["name", "id", "year", "rank"]
      [ReadItem.ok ["1", "A", "1999", "7.4"]] = ⟨[], [], 0, false, none, false⟩ :=
  badHeader_nilError_C3.1 allOk ["name", "id", "year", "rank"]
    [ReadItem.ok ["1", "A", "1999", "7.4"]] (by decide)

/-- C4 (code_bug): on a batch-insert failure the load does stop immediately
and returns the insert error, but `tx.Rollback` is never invoked: the deferred
rollback tests the function-scoped `err`, and the failing `tx.Exec`'s error is
assigned to a freshly shadowed `err`, so the function-scoped one stays nil and
`rollbackCalled` is `false` on every path; the concrete run shows the first
batch insert failing after exactly one executed batch, with the error
surfaced and no rows committed. -/
theorem rollbackNeverInvoked_C4 :
    (∀ (ora : Oracle) (hdr : List String) (stream : List ReadItem),
      (populateMovies ora hdr stream).rollbackCalled = false) ∧
    (populateMovies failFirstExec hdrMovies stream100).err = some GoErr.insertErr ∧
    (populateMovies failFirstExec hdrMovies stream100).execs.length = 1 ∧
    (populateMovies failFirstExec hdrMovies stream100).committed = [] := by
  refine ⟨fun ora hdr stream => (populateMovies_spec ora hdr stream).1, ?_, ?_, ?_⟩ <;>
    decide

/-- C5 (confirmed): when the transaction begins, every batch insert succeeds
and the commit succeeds, the load commits exactly once, returns nil, and the
destination table holds exactly (records read) − (records skipped for decode
failure) rows, batched as n / 100 full batches plus one remainder batch of
n % 100 rows. -/
theorem roundTrip_C5 (ora : Oracle) (hdr : List String) (stream : List ReadItem)
    (hbg : ora.beginOk = true) (he : ∀ i, ora.execOk i = true)
    (hc : ora.commitOk = true) (hv : validateHeaders "movies" hdr = true)
    (hw : ∀ r, ReadItem.ok r ∈ stream → 4 ≤ r.length) :
    (populateMovies ora hdr stream).commits = 1 ∧
    (populateMovies ora hdr stream).err = none ∧
    (populateMovies ora hdr stream).committed.length =
      stream.length - stream.countP ReadItem.isBad ∧
    (populateMovies ora hdr stream).execs.map List.length =
      batchPattern (stream.countP ReadItem.isOk) := by
  obtain ⟨hcom, hcm, herr, -, hmap, -⟩ :=
    populateMovies_success ora hdr stream hbg he hc hv hw
  have hlen := goodRows_length stream hw
  have hcount := countP_isBad_isOk stream
  refine ⟨hcm, herr, ?_, ?_⟩
  · rw [hcom, hlen]
    omega
  · rw [hmap, hlen]

/-- C5 witness: 250 well-formed rows yield two full batches and a remainder
batch of 50, 250 committed rows, and one commit. -/
theorem roundTrip_C5_witness :
    (populateMovies allOk hdrMovies stream250).commits = 1 ∧
    (populateMovies allOk hdrMovies stream250).committed.length = 250 ∧
    (populateMovies allOk hdrMovies stream250).execs.map List.length =
      [100, 100, 50] := by
  obtain ⟨h1, -, h3, h4⟩ := roundTrip_C5 allOk hdrMovies stream250 rfl (fun _ => rfl)
    rfl (by decide) stream250_wf
  refine ⟨h1, ?_, ?_⟩
  · rw [h3]; decide
  · rw [h4]; decide

/-- C2 counterexample: the header sequence `["id,name", "year", "rank"]` is not
element-for-element equal to `["id", "name", "year", "rank"]`, yet
`validateHeaders` accepts it for the movies table, because the comparison
joins both sides with commas before comparing. -/
theorem validateHeaders_counterexample_C2 :
    validateHeaders "movies" ["id,name", "year", "rank"] = true ∧
    ["id,name", "year", "rank"] ≠ ["id", "name", "year", "rank"] := by
  decide

/-- C2 amended: `validateHeaders` compares the comma-joined observed headers
with the comma-joined expected headers; for header sequences none of whose
fields contains a comma this coincides with the claimed exact, order-sensitive
element-wise equality (with unknown table kinds always rejected), but a
sequence whose fields contain commas is accepted whenever the joins agree. -/
theorem validateHeaders_amended_C2 (t : String) (hs : List String)
    (hnc : ∀ s ∈ hs, ',' ∉ s.data) :
    validateHeaders t hs = true ↔
      (t = "movies" ∧ hs = ["id", "name", "year", "rank"]) ∨
      (t = "movies_genres" ∧ hs = ["movie_id", "genre"]) := by
  unfold validateHeaders
  by_cases h1 : t = "movies"
  · rw [if_pos h1]
    subst h1
    simp only [beq_iff_eq]
    constructor
    · intro hj
      left
      refine ⟨by trivial, ?_⟩
      have hd : joinCommaC (hs.map String.data) =
          joinCommaC (["id", "name", "year", "rank"].map String.data) := by
        rw [← goJoinComma_data, ← goJoinComma_data, hj]
      cases hs with
      | nil => exact absurd hj (by decide)
      | cons a l =>
        have hcf : ∀ s ∈ (a :: l).map String.data, ',' ∉ s := by
          intro s hsm
          obtain ⟨s0, hs0, rfl⟩ := List.mem_map.mp hsm
          exact hnc s0 hs0
        have hmap := joinCommaC_inj ((a :: l).map String.data)
          (["id", "name", "year", "rank"].map String.data)
          hcf (by decide) (by simp) (by decide) hd
        exact List.map_injective_iff.mpr (fun s1 s2 h => String.ext h) hmap
    · rintro (⟨-, rfl⟩ | ⟨habs, -⟩)
      · rfl
      · first
        | exact habs.elim
        | exact absurd habs (by decide)
  · rw [if_neg h1]
    by_cases h2 : t = "movies_genres"
    · rw [if_pos h2]
      subst h2
      simp only [beq_iff_eq]
      constructor
      · intro hj
        right
        refine ⟨by trivial, ?_⟩
        have hd : joinCommaC (hs.map String.data) =
            joinCommaC (["movie_id", "genre"].map String.data) := by
          rw [← goJoinComma_data, ← goJoinComma_data, hj]
        cases hs with
        | nil => exact absurd hj (by decide)
        | cons a l =>
          have hcf : ∀ s ∈ (a :: l).map String.data, ',' ∉ s := by
            intro s hsm
            obtain ⟨s0, hs0, rfl⟩ := List.mem_map.mp hsm
            exact hnc s0 hs0
          have hmap := joinCommaC_inj ((a :: l).map String.data)
            (["movie_id", "genre"].map String.data)
            hcf (by decide) (by simp) (by decide) hd
          exact List.map_injective_iff.mpr (fun s1 s2 h => String.ext h) hmap
      · rintro (⟨habs, -⟩ | ⟨-, rfl⟩)
        · first
          | exact habs.elim
          | exact absurd habs (by decide)
        · rfl
    · rw [if_neg h2]
      simp only [Bool.false_eq_true, false_iff]
      rintro (⟨h, -⟩ | ⟨h, -⟩)
      · exact h1 h
      · exact h2 h

/-- C2 witness: the exact expected movies header (comma-free fields) is
accepted. -/
theorem validateHeaders_amended_C2_witness :
    validateHeaders "movies" ["id", "name", "year", "rank"] = true :=
  (validateHeaders_amended_C2 "movies" ["id", "name", "year", "rank"]
    (by decide)).mpr (Or.inl ⟨rfl, rfl⟩)

/-- C6 (confirmed): every batch handed to the transaction's `Exec` has between
1 and 100 rows — full batches of exactly 100 inside the loop, and at end of
stream a non-empty leftover buffer (1..99 rows) is flushed exactly once as the
final, smaller batch: under a fully successful load with `n` valid rows and
`n % 100 ≠ 0`, the last executed batch has exactly `n % 100` rows. -/
theorem batchBounds_C6 (ora : Oracle) (hdr : List String) (stream : List ReadItem) :
    (∀ b ∈ (populateMovies ora hdr stream).execs, 1 ≤ b.length ∧ b.length ≤ 100) ∧
    (ora.beginOk = true → (∀ i, ora.execOk i = true) → ora.commitOk = true →
      validateHeaders "movies" hdr = true →
      (∀ r, ReadItem.ok r ∈ stream → 4 ≤ r.length) →
      stream.countP ReadItem.isOk % 100 ≠ 0 →
      ((populateMovies ora hdr stream).execs.map List.length).getLast? =
        some (stream.countP ReadItem.isOk % 100)) := by
  refine ⟨populateMovies_execs_sizes ora hdr stream, ?_⟩
  intro hbg he hc hv hw hm
  obtain ⟨-, -, -, -, hmap, -⟩ :=
    populateMovies_success ora hdr stream hbg he hc hv hw
  rw [hmap, goodRows_length stream hw]
  exact batchPattern_getLast _ hm

/-- C6 witness: with 250 valid rows the final flushed batch has 50 rows. -/
theorem batchBounds_C6_witness :
    ((populateMovies allOk hdrMovies stream250).execs.map List.length).getLast? =
      some 50 := by
  have h := (batchBounds_C6 allOk hdrMovies stream250).2 rfl (fun _ => rfl) rfl
    (by decide) stream250_wf (by decide)
  have hc : stream250.countP ReadItem.isOk = 250 := by decide
  rw [hc] at h
  exact h

/-- C7 counterexample: an input with 0 valid data rows (0 ≤ 100) executes no
batch insert at all — not exactly one as the claim states for every
`n ≤ 100`; the zero-row buffer is never flushed. -/
theorem batchCount_counterexample_C7 :
    List.countP ReadItem.isOk ([] : List ReadItem) = 0 ∧
    (populateMovies allOk hdrMovies ([] : List ReadItem)).execs = [] := by
  decide

/-- C7 amended: for `1 ≤ n ≤ 100` valid rows exactly one batch insert is
executed, containing all `n` valid rows in original order (for `n = 100` it is
the full batch flushed inside the loop, otherwise the remainder flush); and
for `n` a positive multiple of 100 under a fully successful load, no remainder
batch is executed and the number of full-batch inserts is `n / 100`. -/
theorem batchCount_amended_C7 (ora : Oracle) (hdr : List String)
    (stream : List ReadItem) (hbg : ora.beginOk = true)
    (hv : validateHeaders "movies" hdr = true)
    (hw : ∀ r, ReadItem.ok r ∈ stream → 4 ≤ r.length) :
    (1 ≤ stream.countP ReadItem.isOk → stream.countP ReadItem.isOk ≤ 100 →
      (populateMovies ora hdr stream).execs = [goodRows stream]) ∧
    ((∀ i, ora.execOk i = true) → ora.commitOk = true →
      stream.countP ReadItem.isOk % 100 = 0 →
      (populateMovies ora hdr stream).execs.map List.length =
        List.replicate (stream.countP ReadItem.isOk / 100) 100) := by
  have hlen : (goodRows stream).length = stream.countP ReadItem.isOk :=
    goodRows_length stream hw
  constructor
  · intro hlo hhi
    unfold populateMovies
    rw [if_pos hv, if_pos hbg]
    obtain ⟨hsmall, h100⟩ :=
      moviesLoop_le100 ora stream ⟨[], [], [], 0, 0⟩ (by simp) hw
    rcases Nat.lt_or_ge (stream.countP ReadItem.isOk) 100 with hlt | hge
    · have hd := hsmall (by simp only [List.nil_append]; omega)
      rw [hd]
      dsimp only
      simp only [List.nil_append]
      have hgne : ¬((goodRows stream).isEmpty = true) := by
        simp only [List.isEmpty_iff]
        intro h0
        rw [h0] at hlen
        simp at hlen
        omega
      rw [if_neg hgne]
      by_cases hoe : ora.execOk 0 = true
      · rw [if_pos hoe]
        by_cases hco : ora.commitOk = true
        · rw [if_pos hco]
        · rw [if_neg hco]
      · rw [if_neg hoe]
    · have hT := (h100 (by simp only [List.nil_append]; omega)).1
      have hF := (h100 (by simp only [List.nil_append]; omega)).2
      by_cases hoe : ora.execOk 0 = true
      · rw [hT hoe]
        dsimp only
        by_cases hco : ora.commitOk = true
        · rw [if_pos (by simp), if_pos hco]
          simp
        · rw [if_pos (by simp), if_neg hco]
          simp
      · have hoe2 : ora.execOk 0 = false := by
          revert hoe
          cases h : ora.execOk 0 <;> simp
        rw [hF hoe2]
        dsimp only
        simp
  · intro he hc hm0
    obtain ⟨-, -, -, -, hmap, -⟩ :=
      populateMovies_success ora hdr stream hbg he hc hv hw
    rw [hmap, hlen]
    simp [batchPattern, hm0]

/-- C7 witness: 100 valid rows produce exactly one executed batch holding all
100 rows in order. -/
theorem batchCount_amended_C7_witness :
    (populateMovies allOk hdrMovies stream100).execs = [goodRows stream100] :=
  (batchCount_amended_C7 allOk hdrMovies stream100 rfl (by decide)
    stream100_wf).1 (by decide) (by decide)

/-- C8 (confirmed; reader modelled from the spec): in lenient mode
(`LazyQuotes = true`, as set in the source) a row containing an unescaped
quote but the right field count is returned as a successfully decoded record
instead of a decode error, so it is inserted rather than skipped; over a
fully successful load the lenient inserted count exceeds the strict-parsing
count by exactly the number of such rows. -/
theorem lenientParsing_C8 (raws : List RawRow) :
    (∀ r : RawRow, r.fields.length = 4 →
      readRow true 4 r = ReadItem.ok r.fields) ∧
    (populateMovies allOk hdrMovies (readerStream true 4 raws)).committed.length =
      (populateMovies allOk hdrMovies (readerStream false 4 raws)).committed.length +
      raws.countP (fun r => r.unescapedQuote && r.fields.length == 4) := by
  constructor
  · intro r h
    simp [readRow, h]
  · have hwL : ∀ r, ReadItem.ok r ∈ readerStream true 4 raws → 4 ≤ r.length := by
      intro r hr
      have := readerStream_ok_length true 4 raws r hr
      omega
    have hwS : ∀ r, ReadItem.ok r ∈ readerStream false 4 raws → 4 ≤ r.length := by
      intro r hr
      have := readerStream_ok_length false 4 raws r hr
      omega
    obtain ⟨hcomL, -, -, -, -, -⟩ := populateMovies_success allOk hdrMovies
      (readerStream true 4 raws) rfl (fun _ => rfl) rfl (by decide) hwL
    obtain ⟨hcomS, -, -, -, -, -⟩ := populateMovies_success allOk hdrMovies
      (readerStream false 4 raws) rfl (fun _ => rfl) rfl (by decide) hwS
    rw [hcomL, hcomS]
    exact goodRows_lenient_strict raws

/-- C8 witness: one well-formed row with an unescaped quote is inserted under
lenient parsing, one more than under strict parsing. -/
theorem lenientParsing_C8_witness :
    (populateMovies allOk hdrMovies (readerStream true 4 rawsQuote)).committed.length =
      (populateMovies allOk hdrMovies
        (readerStream false 4 rawsQuote)).committed.length + 1 := by
  have h := (lenientParsing_C8 rawsQuote).2
  have hc : rawsQuote.countP (fun r => r.unescapedQuote && r.fields.length == 4) = 1 := by
    decide
  rw [hc] at h
  exact h

/-- C10 counterexample: the quoted header line `"id,name",year,rank` validates
successfully for the movies table but has only 3 fields, so the reader fixes
the expected field count at 3, returns the 3-field data row without error, and
the loop's `record[3]` access panics — the claimed in-bounds guarantee fails. -/
theorem fieldAccess_counterexample_C10 :
    validateHeaders "movies" ["id,name", "year", "rank"] = true ∧
    (populateMoviesFromRaw allOk ["id,name", "year", "rank"]
      [⟨["1", "A", "1999"], false⟩]).panicked = true := by
  decide

/-- C10 amended: when the validated header has exactly 4 fields (movies),
resp. 2 fields (movies_genres), every record the modelled reader returns
without error has that field count, so the positional accesses
`record[0]..record[3]` (resp. `record[0]..record[1]`) are in bounds and the
loop never panics; a validated header with fewer fields (comma-containing
quoted fields) voids the guarantee. -/
theorem fieldAccess_amended_C10 (ora : Oracle) (hdr : List String)
    (raws : List RawRow) :
    (hdr.length = 4 → (populateMoviesFromRaw ora hdr raws).panicked = false) ∧
    (hdr.length = 2 → (populateMoviesGenresFromRaw ora hdr raws).panicked = false) := by
  constructor
  · intro h4
    unfold populateMoviesFromRaw
    apply populateMovies_panicked
    intro r hr
    have := readerStream_ok_length true hdr.length raws r hr
    omega
  · intro h2
    unfold populateMoviesGenresFromRaw
    apply populateMoviesGenres_panicked
    intro r hr
    have := readerStream_ok_length true hdr.length raws r hr
    omega

/-- C10 witness: with the exact 4-field movies header, a well-formed row is
processed without any panic. -/
theorem fieldAccess_amended_C10_witness :
    (populateMoviesFromRaw allOk hdrMovies
      [⟨["1", "A", "1999", "7.4"], false⟩]).panicked = false :=
  (fieldAccess_amended_C10 allOk hdrMovies
    [⟨["1", "A", "1999", "7.4"], false⟩]).1 rfl

/-- C9 counterexample: two movies with distinct numeric ranks in the single
genre Drama produce two result rows for that genre — `GROUP BY mg.genre,
m.rank` groups by genre and rank, so the query does not return one row per
genre, and neither row carries the genre-wide average 6 with count 2. -/
theorem query_counterexample_C9 :
    (queryDbHighestRatedGenres msCex gsCex).map AggRow.genre = ["Drama", "Drama"] ∧
    queryDbHighestRatedGenres msCex gsCex =
      [⟨"Drama", 7, 1⟩, ⟨"Drama", 5, 1⟩] := by
  have hj : joinedRows msCex gsCex =
      [("Drama", SqlVal.vReal 7), ("Drama", SqlVal.vReal 5)] := by decide
  have h7 : aggFor (joinedRows msCex gsCex) ("Drama", SqlVal.vReal 7) =
      ⟨"Drama", 7, 1⟩ := by
    obtain ⟨hg, ha, hc, -⟩ := aggFor_spec (joinedRows msCex gsCex)
      ("Drama", SqlVal.vReal 7) 7 (by rw [hj]; simp) rfl
    have hcv : (joinedRows msCex gsCex).countP
        (fun x => decide (x = ("Drama", SqlVal.vReal 7))) = 1 := by
      rw [hj]; decide
    rw [hcv] at hc
    have heta : aggFor (joinedRows msCex gsCex) ("Drama", SqlVal.vReal 7) =
        ⟨(aggFor (joinedRows msCex gsCex) ("Drama", SqlVal.vReal 7)).genre,
          (aggFor (joinedRows msCex gsCex) ("Drama", SqlVal.vReal 7)).avg_rank,
          (aggFor (joinedRows msCex gsCex) ("Drama", SqlVal.vReal 7)).movie_count⟩ := rfl
    rw [heta, hg, ha, hc]
  have h5 : aggFor (joinedRows msCex gsCex) ("Drama", SqlVal.vReal 5) =
      ⟨"Drama", 5, 1⟩ := by
    obtain ⟨hg, ha, hc, -⟩ := aggFor_spec (joinedRows msCex gsCex)
      ("Drama", SqlVal.vReal 5) 5 (by rw [hj]; simp) rfl
    have hcv : (joinedRows msCex gsCex).countP
        (fun x => decide (x = ("Drama", SqlVal.vReal 5))) = 1 := by
      rw [hj]; decide
    rw [hcv] at hc
    have heta : aggFor (joinedRows msCex gsCex) ("Drama", SqlVal.vReal 5) =
        ⟨(aggFor (joinedRows msCex gsCex) ("Drama", SqlVal.vReal 5)).genre,
          (aggFor (joinedRows msCex gsCex) ("Drama", SqlVal.vReal 5)).avg_rank,
          (aggFor (joinedRows msCex gsCex) ("Drama", SqlVal.vReal 5)).movie_count⟩ := rfl
    rw [heta, hg, ha, hc]
  have hd : (joinedRows msCex gsCex).dedup =
      [("Drama", SqlVal.vReal 7), ("Drama", SqlVal.vReal 5)] := by
    rw [hj]; decide
  have hagg : aggRows msCex gsCex = [⟨"Drama", 7, 1⟩, ⟨"Drama", 5, 1⟩] := by
    unfold aggRows
    rw [hd, List.map_cons, List.map_cons, List.map_nil, h7, h5]
  unfold queryDbHighestRatedGenres
  rw [hagg]
  constructor
  · decide
  · decide

/-- C9 amended: over committed states whose rank values are NULL, numeric, or
the literal text NULL, the first reporting query returns at most 20 rows, one
per distinct `(genre, rank)` pair of the filtered join (not one per genre),
ordered descending by average rating; each row's average is its group's common
rank value and its count is the number of joined non-null-numeric-rank rows
with exactly that `(genre, rank)` pair. -/
theorem query_amended_C9 (ms : List MovieRow) (gs : List GenreRow)
    (hr : ∀ m ∈ ms, m.rank = SqlVal.vNull ∨ (∃ q, m.rank = SqlVal.vReal q) ∨
      m.rank = SqlVal.vText "NULL") :
    (queryDbHighestRatedGenres ms gs).length ≤ 20 ∧
    List.Sorted aggGE (queryDbHighestRatedGenres ms gs) ∧
    ((queryDbHighestRatedGenres ms gs).map fun r => (r.genre, r.avg_rank)).Nodup ∧
    ∀ r ∈ queryDbHighestRatedGenres ms gs,
      (r.genre, SqlVal.vReal r.avg_rank) ∈ joinedRows ms gs ∧
      1 ≤ r.movie_count ∧
      r.movie_count = (joinedRows ms gs).countP
        (fun x => decide (x = (r.genre, SqlVal.vReal r.avg_rank))) := by
  have hreal := joinedRows_real ms gs hr
  have hmem : ∀ r ∈ aggRows ms gs, ∃ k ∈ (joinedRows ms gs).dedup,
      r = aggFor (joinedRows ms gs) k := by
    intro r hrm
    unfold aggRows at hrm
    obtain ⟨k, hk, rfl⟩ := List.mem_map.mp hrm
    exact ⟨k, hk, rfl⟩
  have hperm : List.Perm (List.insertionSort aggGE (aggRows ms gs)) (aggRows ms gs) :=
    List.perm_insertionSort aggGE (aggRows ms gs)
  unfold queryDbHighestRatedGenres
  refine ⟨List.length_take_le 20 _, ?_, ?_, ?_⟩
  · exact List.Pairwise.sublist (List.take_sublist 20 _)
      (List.sorted_insertionSort aggGE (aggRows ms gs))
  · have hagg_map : (aggRows ms gs).map (fun r => (r.genre, r.avg_rank)) =
        ((joinedRows ms gs).dedup).map
          (fun k => ((aggFor (joinedRows ms gs) k).genre,
            (aggFor (joinedRows ms gs) k).avg_rank)) := by
      unfold aggRows
      rw [List.map_map]
      rfl
    have hinj : ∀ k1 ∈ (joinedRows ms gs).dedup, ∀ k2 ∈ (joinedRows ms gs).dedup,
        ((aggFor (joinedRows ms gs) k1).genre,
          (aggFor (joinedRows ms gs) k1).avg_rank) =
        ((aggFor (joinedRows ms gs) k2).genre,
          (aggFor (joinedRows ms gs) k2).avg_rank) → k1 = k2 := by
      intro k1 hk1 k2 hk2 heq
      have hk1j := List.mem_dedup.mp hk1
      have hk2j := List.mem_dedup.mp hk2
      obtain ⟨q1, hq1⟩ := hreal k1 hk1j
      obtain ⟨q2, hq2⟩ := hreal k2 hk2j
      obtain ⟨hg1, ha1, -, -⟩ := aggFor_spec _ k1 q1 hk1j hq1
      obtain ⟨hg2, ha2, -, -⟩ := aggFor_spec _ k2 q2 hk2j hq2
      rw [hg1, hg2, ha1, ha2, Prod.mk.injEq] at heq
      obtain ⟨hfst, hsnd0⟩ := heq
      have hsnd : k1.2 = k2.2 := by rw [hq1, hq2, hsnd0]
      exact Prod.ext hfst hsnd
    have hnodup_agg : ((aggRows ms gs).map (fun r => (r.genre, r.avg_rank))).Nodup := by
      rw [hagg_map]
      exact (List.nodup_dedup _).map_on hinj
    have hnodup_sorted : ((List.insertionSort aggGE (aggRows ms gs)).map
        (fun r => (r.genre, r.avg_rank))).Nodup :=
      ((hperm.map _).nodup_iff).mpr hnodup_agg
    exact hnodup_sorted.sublist ((List.take_sublist 20 _).map _)
  · intro r hrq
    have hrs : r ∈ List.insertionSort aggGE (aggRows ms gs) :=
      List.mem_of_mem_take hrq
    have hra : r ∈ aggRows ms gs := hperm.mem_iff.mp hrs
    obtain ⟨k, hk, rfl⟩ := hmem r hra
    have hkj := List.mem_dedup.mp hk
    obtain ⟨q, hq⟩ := hreal k hkj
    obtain ⟨hg, ha, hcnt, hpos⟩ := aggFor_spec _ k q hkj hq
    have hkey : ((aggFor (joinedRows ms gs) k).genre,
        SqlVal.vReal ((aggFor (joinedRows ms gs) k).avg_rank)) = k := by
      rw [hg, ha, ← hq]
    refine ⟨?_, hpos, ?_⟩
    · rw [hkey]; exact hkj
    · rw [hkey]; exact hcnt

/-- C9 witness (amended theorem at the concrete two-movie state): the query
output has at most 20 rows and each row's count covers exactly its
`(genre, rank)` group. -/
theorem query_amended_C9_witness :
    (queryDbHighestRatedGenres msCex gsCex).length ≤ 20 := by
  have h := query_amended_C9 msCex gsCex ?hr
  · exact h.1
  case hr =>
    intro m hm
    unfold msCex at hm
    rcases List.mem_cons.mp hm with rfl | hm2
    · exact Or.inr (Or.inl ⟨7, rfl⟩)
    · rcases List.mem_cons.mp hm2 with rfl | hm3
      · exact Or.inr (Or.inl ⟨5, rfl⟩)
      · cases hm3
